import Mathlib

/-!
# Verification of the torch4keras `Trainer` run loop

This file gives a shallow embedding of the control-flow core of
`torch4keras/trainer.py` (the `Trainer` class): the `_fit` epoch/step loop and
the lifecycle events it emits, the gradient-accumulation loss bookkeeping of
`train_step`, the parameter-update sequencing of `step`, the
`steps_per_epoch` resolution of `_prepare_inputs`, the callback-list
construction of `_prepare_callbacks`, the loss normalization of `train_step`,
the exception wrapper of `fit`, the step-resume record of
`save_steps_params`/`load_steps_params`, and the strict-flag handling of
`load_weights`.  Scalar tensor values are modelled as rationals; the external
collaborators (model, optimizer, scheduler, scaler, dataloader) are abstracted
to the observations the orchestration layer makes of them.
-/

namespace Torch4Keras

/-! ## The fit loop as an event trace

`Trainer._fit` drives epochs and steps and notifies callbacks at each
lifecycle point.  We record the trace of lifecycle events (plus the batch
fetches of `_prepare_nextbatch` and the parameter updates of `self.step()`),
each event carrying the counter values the code passes to the callbacks, and
additionally the trainer's `epoch` attribute at batch events (observable by
callbacks through the trainer reference). -/

inductive Event where
  | trainBegin : Event
  | epochBegin (globalStep epoch : Nat) : Event
  | batchBegin (epoch globalStep localStep : Nat) : Event
  | batchFetch : Event
  | trainStepEnd : Event
  | optStep : Event
  | batchEnd (epoch globalStep localStep : Nat) : Event
  | epochEnd (globalStep epoch : Nat) : Event
  | trainEnd : Event
deriving DecidableEq, Repr

/-- Configuration and trainer state entering `_fit`: epoch count, resolved
`steps_per_epoch`, the resume counters (`0` on a fresh trainer, otherwise set
by `load_steps_params`), the gradient-accumulation factor, and the decision
callbacks make about `stop_training`, observed at the `on_epoch_end` boundary
of each epoch. -/
structure FitConfig where
  epochs : Nat
  stepsPerEpoch : Nat
  resumeEpoch : Nat
  resumeStep : Nat
  gradAccumulationSteps : Nat
  stopOnEpochEnd : Nat → Bool

/-- Events of the gradient-accumulation inner loop
(`for _ in range(self.grad_accumulation_steps)`): each iteration fetches one
batch via `_prepare_nextbatch` and, after `train_step`, fires
`on_train_step_end`. -/
def accumEvents : Nat → List Event
  | 0 => []
  | a + 1 => Event.batchFetch :: Event.trainStepEnd :: accumEvents a

/-- Events of one iteration of the `local_step` loop body: `on_batch_begin`,
the accumulation inner loop, the single `self.step()` parameter update, then
`on_batch_end`.  The code sets
`self.global_step = self.epoch * self.steps_per_epoch + self.local_step`
at the top of the body. -/
def stepEvents (epoch S A localStep : Nat) : List Event :=
  Event.batchBegin epoch (epoch * S + localStep) localStep ::
    (accumEvents A ++
      [Event.optStep, Event.batchEnd epoch (epoch * S + localStep) localStep])

/-- The `for local_step in range(resume_step, self.steps_per_epoch)` loop,
by recursion on the number `r` of remaining iterations.  Returns the emitted
events together with the final value of `self.global_step` (which the loop
leaves untouched when it runs zero iterations). -/
def localLoop (epoch S A gs localStep : Nat) : Nat → List Event × Nat
  | 0 => ([], gs)
  | r + 1 =>
      let rest := localLoop epoch S A (epoch * S + localStep) (localStep + 1) r
      (stepEvents epoch S A localStep ++ rest.1, rest.2)

/-- The start of the `local_step` range:
`resume_step = self.resume_step if epoch==self.resume_epoch else 0`. -/
def epochStart (c : FitConfig) (epoch : Nat) : Nat :=
  if epoch = c.resumeEpoch then c.resumeStep else 0

/-- The `for epoch in range(self.resume_epoch, epochs)` loop, by recursion on
the number `r` of remaining epochs.  The local step range starts at
`self.resume_step` when `epoch == self.resume_epoch` and at `0` otherwise;
after `on_epoch_end` the loop breaks when a callback has set
`stop_training`. -/
def epochLoop (c : FitConfig) (gs epoch : Nat) : Nat → List Event × Nat
  | 0 => ([], gs)
  | r + 1 =>
      let start := epochStart c epoch
      let inner := localLoop epoch c.stepsPerEpoch c.gradAccumulationSteps gs
        start (c.stepsPerEpoch - start)
      let evs := Event.epochBegin gs epoch ::
        (inner.1 ++ [Event.epochEnd inner.2 epoch])
      if c.stopOnEpochEnd epoch then (evs, inner.2)
      else
        let rest := epochLoop c inner.2 (epoch + 1) r
        (evs ++ rest.1, rest.2)

/-- The full event trace of `Trainer._fit`: `on_train_begin`, the epoch loop
(`self.global_step` starts at `0`), then `on_train_end`. -/
def fitEvents (c : FitConfig) : List Event :=
  Event.trainBegin :: ((epochLoop c 0 c.resumeEpoch (c.epochs - c.resumeEpoch)).1
    ++ [Event.trainEnd])

/-- Extractor for the `global_step` argument of an `on_batch_end` event. -/
def batchEndG : Event → Option Nat
  | Event.batchEnd _ g _ => some g
  | _ => none

/-- The sequence of `global_step` values passed to `on_batch_end`. -/
def batchEndSteps (evs : List Event) : List Nat :=
  evs.filterMap batchEndG

/-- Extractor for the `local_step` argument of an `on_batch_begin` event of
epoch `e`. -/
def batchBeginLocalG (e : Nat) : Event → Option Nat
  | Event.batchBegin e' _ l => if e' = e then some l else none
  | _ => none

/-- The sequence of `local_step` values passed to `on_batch_begin` during
epoch `e`. -/
def epochBatchBegins (evs : List Event) (e : Nat) : List Nat :=
  evs.filterMap (batchBeginLocalG e)

/-- The `local_step` at which epoch `e` starts iterating, observed as the
first `on_batch_begin` of that epoch. -/
def firstLocalOfEpoch (evs : List Event) (e : Nat) : Option Nat :=
  (epochBatchBegins evs e).head?

def isBatchFetch : Event → Bool
  | Event.batchFetch => true
  | _ => false

def isOptStep : Event → Bool
  | Event.optStep => true
  | _ => false

/-! ## Loss scaling and accumulation (`Trainer.train_step` and the
accumulation loop of `_fit`)

Scalar losses are modelled as rationals.  `train_step` divides the loss by
`grad_accumulation_steps` when that factor exceeds `1`, and this scaled value
is what `loss_backward` receives and what `loss.item()` contributes to the
running `tr_loss`. -/

/-- The loss value `train_step` passes to `loss_backward` and returns:
`loss = loss / self.grad_accumulation_steps if self.grad_accumulation_steps > 1 else loss`. -/
def trainStepLoss (A : Nat) (l : ℚ) : ℚ :=
  if A > 1 then l / A else l

/-- The logged `loss` after the accumulation loop: `tr_loss` starts at `0`
and each of the `A` micro-batches adds its (scaled) `loss.item()`. -/
def trLoss (A : Nat) (losses : List ℚ) : ℚ :=
  (losses.map (trainStepLoss A)).sum

/-! ## Parameter update sequencing (`Trainer.step`) -/

inductive StepAction where
  | unscale : StepAction
  | clipGrad : StepAction
  | scalerOptStep : StepAction
  | scalerUpdate : StepAction
  | optStep : StepAction
  | zeroGrad : StepAction
  | schedStep (i : Nat) : StepAction
deriving DecidableEq, Repr

/-- State entering `Trainer.step`: whether a mixed-precision mode is set,
whether `clip_grad_norm` is configured, the scale recorded by `loss_backward`
before the step, the scale reported by the scaler after `scaler.update()`,
and the scheduler attribute (`none`, or the list of schedulers; a single
scheduler is the singleton list). -/
structure StepConfig where
  mixedPrecisionMode : Bool
  clipGradNorm : Option ℚ
  scaleBeforeStep : ℚ
  scaleAfterUpdate : ℚ
  scheduler : Option (List Nat)

/-- `skip_scheduler`: initialized to `False`; in the mixed-precision branch
set to `self.scaler.get_scale() != self.scale_before_step` after
`scaler.update()`. -/
def skipScheduler (c : StepConfig) : Bool :=
  if c.mixedPrecisionMode then decide (c.scaleAfterUpdate ≠ c.scaleBeforeStep)
  else false

/-- The actions of `Trainer.step` up to (and including) the optimizer
update.  Mixed precision: `scaler.unscale_`, optional
`clip_grad_norm_`, `scaler.step(optimizer)`, `scaler.update()`.  Otherwise:
optional `clip_grad_norm_` then `optimizer.step()`. -/
def stepMainActions (c : StepConfig) : List StepAction :=
  let clipActs : List StepAction :=
    if c.clipGradNorm.isSome then [StepAction.clipGrad] else []
  if c.mixedPrecisionMode then
    StepAction.unscale ::
      (clipActs ++ [StepAction.scalerOptStep, StepAction.scalerUpdate])
  else
    clipActs ++ [StepAction.optStep]

/-- The scheduler-stepping actions at the end of `Trainer.step`: when a
scheduler is set and `skip_scheduler` is false, every scheduler is stepped
in list order. -/
def stepSchedActions (c : StepConfig) : List StepAction :=
  match c.scheduler, skipScheduler c with
  | some ss, false => ss.map StepAction.schedStep
  | _, _ => []

/-- The actions `Trainer.step` performs, in order: the optimizer-update part,
then `optimizer.zero_grad()`, then the scheduler steps (unless skipped). -/
def trainerStep (c : StepConfig) : List StepAction :=
  stepMainActions c ++ StepAction.zeroGrad :: stepSchedActions c

/-- The optimizer-stepping action of the active mode. -/
def optimizerAction (c : StepConfig) : StepAction :=
  if c.mixedPrecisionMode then StepAction.scalerOptStep else StepAction.optStep

/-- The scheduler index carried by a `schedStep` action. -/
def schedIdx : StepAction → Option Nat
  | StepAction.schedStep i => some i
  | _ => none

/-! ## `steps_per_epoch` resolution (`Trainer._prepare_inputs`)

The code asserts that either the dataloader has `__len__` or
`steps_per_epoch` was given, and derives
`self.steps_per_epoch = math.ceil(len(train_dataloader) // self.grad_accumulation_steps)`
when `steps_per_epoch` is `None`.  Python's `//` is floor division on
integers (`Nat` division here) and `math.ceil` is then applied to that
already-integral value. -/

/-- The value `math.ceil(len(train_dataloader) // grad_accumulation_steps)`
computed by the code when `steps_per_epoch` is not given. -/
def derivedStepsPerEpoch (dataloaderLen A : Nat) : ℤ :=
  Int.ceil (((dataloaderLen / A : Nat) : ℚ))

/-- `steps_per_epoch` resolution: `dataloaderLen` is the dataloader's declared
length (`none` when it has no `__len__`), `stepsPerEpoch` the caller's
argument.  The `assert` failure when neither is available is the error
case. -/
def prepareStepsPerEpoch (dataloaderLen : Option Nat) (stepsPerEpoch : Option Nat)
    (A : Nat) : Except String ℤ :=
  match dataloaderLen, stepsPerEpoch with
  | none, none =>
      Except.error "Either train_dataloader has attr __len__ or steps_per_epoch is not None"
  | _, some s => Except.ok (s : ℤ)
  | some n, none => Except.ok (derivedStepsPerEpoch n A)

/-! ## Callback list construction (`Trainer._prepare_callbacks`) -/

/-- The callbacks relevant to dispatch ordering: metric-smoothing callbacks
(`SmoothMetricsCallback`, user-supplied instances carry an id, the
default-injected one is `smooth 0`), the progress-bar callback, user
callbacks, and the internally created `History`. -/
inductive CB where
  | smooth (id : Nat) : CB
  | progbar : CB
  | user (id : Nat) : CB
  | history : CB
deriving DecidableEq, Repr

def isSmooth : CB → Bool
  | CB.smooth _ => true
  | _ => false

/-- The ordered callback list built by `_prepare_callbacks` from the
user-registered `callbacks`: the first user-supplied `SmoothMetricsCallback`
(or, when none is registered and `smooth_metrics_config` carries an
`interval`, a default-injected one) goes first; the progress-bar callback is
appended when `verbose`; then the remaining user callbacks in registration
order; then the internally created `History`. -/
def prepareCallbacks (callbacks : List CB) (smoothIntervalSet verbose : Bool) :
    List CB :=
  let smoothFirst : List CB :=
    match callbacks.filter isSmooth with
    | [] => if smoothIntervalSet then [CB.smooth 0] else []
    | s :: _ => [s]
  let userCbs := callbacks.filter fun cb => !(isSmooth cb)
  let withBar := if verbose then smoothFirst ++ [CB.progbar] else smoothFirst
  withBar ++ (userCbs ++ [CB.history])

/-- Modelled from the spec: the `CallbackList` container
(`torch4keras/callbacks.py`, not under `src/`) dispatches every lifecycle
event to its callbacks strictly in list order, and a global flag
(`run_callbacks`) disables dispatch entirely without removing the registered
callbacks. -/
def dispatchOrder (cbs : List CB) (runCallbacks : Bool) : List CB :=
  if runCallbacks then cbs else []

/-! ## Loss normalization (`Trainer.train_step`) -/

/-- Error classes the normalization code can raise: the explicit
`ValueError`, the `KeyError` from `loss_detail['loss']` on a mapping missing
that key, and the `IndexError` from `loss_detail[0]` on an empty sequence.
`typeError` is included so `ValueError` can be distinguished from a
`TypeError`-class error. -/
inductive PyError where
  | valueError (msg : String) : PyError
  | keyError (key : String) : PyError
  | indexError : PyError
  | typeError (msg : String) : PyError
deriving DecidableEq, Repr

/-- Shapes the criterion's return value can take: a bare scalar tensor, a
mapping from names to scalars, a tuple/list of scalars, or anything else. -/
inductive LossResult where
  | tensor (v : ℚ) : LossResult
  | mapping (entries : List (String × ℚ)) : LossResult
  | seq (vs : List ℚ) : LossResult
  | other : LossResult
deriving DecidableEq, Repr

/-- The names given to the auxiliary losses of a sequence-shaped result:
`{f'loss{i}': v for i, v in enumerate(loss_detail[1:], start=1)}`. -/
def lossDetailNames (rest : List ℚ) : List (String × ℚ) :=
  rest.enum.map fun p => ("loss" ++ toString (p.1 + 1), p.2)

/-- Whether a normalization outcome is a `TypeError`-class failure. -/
def isTypeErrorResult : Except PyError (ℚ × List (String × ℚ)) → Bool
  | Except.error (PyError.typeError _) => true
  | _ => false

/-- The loss-normalization block of `train_step`: a bare tensor is the loss
with empty detail; a mapping yields `loss = loss_detail['loss']` with the
remaining entries as detail; a tuple/list yields its first element as loss
and the rest as `loss1, loss2, ...`; anything else raises
`ValueError`. -/
def normalizeLoss : LossResult → Except PyError (ℚ × List (String × ℚ))
  | LossResult.tensor v => Except.ok (v, [])
  | LossResult.mapping entries =>
      match entries.lookup "loss" with
      | some v => Except.ok (v, entries.filter fun p => !(p.1 == "loss"))
      | none => Except.error (PyError.keyError "loss")
  | LossResult.seq [] => Except.error PyError.indexError
  | LossResult.seq (v :: rest) => Except.ok (v, lossDetailNames rest)
  | LossResult.other =>
      Except.error (PyError.valueError "Return loss only support Tensor/dict/tuple/list format")

/-! ## The exception wrapper of `Trainer.fit`

`fit` runs `_fit` inside a `try`; its `except` block runs, in order, the
`send_email` notification (when `mail_receivers_when_error` is configured),
`save_to_checkpoint` (when `save_ckpt_dir_when_error` is configured) and the
last-batch `torch.save` (when `save_batch_path_when_error` is configured),
then `raise e`.  Each diagnostic is an external call that may itself raise;
Python then leaves the `except` block with that new exception.  A configured
diagnostic is `some r` where `r` is the outcome of running it; `none` means
not configured. -/

inductive Diagnostic where
  | sendMail : Diagnostic
  | saveCkpt : Diagnostic
  | saveBatch : Diagnostic
deriving DecidableEq, Repr

/-- Running one optional diagnostic: skipped when not configured. -/
def runDiagnostic (cfg : Option (Except String Unit)) : Except String Unit :=
  match cfg with
  | none => Except.ok ()
  | some r => r

/-- The diagnostics attempted so far, in configuration order. -/
def attemptedDiagnostics (mail ckpt batch : Option (Except String Unit)) :
    List Diagnostic :=
  (if mail.isSome then [Diagnostic.sendMail] else []) ++
  (if ckpt.isSome then [Diagnostic.saveCkpt] else []) ++
  (if batch.isSome then [Diagnostic.saveBatch] else [])

/-- `Trainer.fit`: the result of `_fit` is `inner`; on error the except block
runs the configured diagnostics in order and re-raises.  Returns the overall
result together with the list of diagnostics that were started. -/
def fitExceptWrapper {α : Type} (inner : Except String α)
    (mail ckpt batch : Option (Except String Unit)) :
    Except String α × List Diagnostic :=
  match inner with
  | Except.ok a => (Except.ok a, [])
  | Except.error e =>
      let p1 : List Diagnostic := if mail.isSome then [Diagnostic.sendMail] else []
      match runDiagnostic mail with
      | Except.error em => (Except.error em, p1)
      | Except.ok _ =>
          let p2 := p1 ++ (if ckpt.isSome then [Diagnostic.saveCkpt] else [])
          match runDiagnostic ckpt with
          | Except.error ec => (Except.error ec, p2)
          | Except.ok _ =>
              let p3 := p2 ++ (if batch.isSome then [Diagnostic.saveBatch] else [])
              match runDiagnostic batch with
              | Except.error eb => (Except.error eb, p3)
              | Except.ok _ => (Except.error e, p3)

/-! ## Step-resume record (`Trainer.save_steps_params`) -/

/-- The record persisted by `save_steps_params`, computed from the trainer's
current `local_step`, `epoch` and `steps_per_epoch`:
`{'resume_step': (local_step+1) % steps_per_epoch,
  'resume_epoch': epoch + (local_step+1) // steps_per_epoch}`.
Returned as the pair `(resume_step, resume_epoch)`. -/
def saveStepsParams (localStep epoch stepsPerEpoch : Nat) : Nat × Nat :=
  ((localStep + 1) % stepsPerEpoch, epoch + (localStep + 1) / stepsPerEpoch)

/-! ## `Trainer.load_weights` strict-flag handling

`load_weights` normalizes its `load_path` argument: for a tuple or list it
first overwrites `strict` with `False`; a single string becomes the singleton
list.  Then every path is loaded via `load_state_dict(state_dict,
strict=strict)`.  We record the sequence of `(path, strict)` pairs of those
`load_state_dict` calls. -/

inductive LoadPathArg where
  | str (p : String) : LoadPathArg
  | tuple (ps : List String) : LoadPathArg
  | list (ps : List String) : LoadPathArg
deriving DecidableEq, Repr

/-- The `(path, strict)` pairs `load_weights` passes to
`load_state_dict`. -/
def loadWeightsCalls (loadPath : LoadPathArg) (strict : Bool) :
    List (String × Bool) :=
  match loadPath with
  | LoadPathArg.tuple ps => ps.map fun p => (p, false)
  | LoadPathArg.list ps => ps.map fun p => (p, false)
  | LoadPathArg.str p => [(p, strict)]

/-! ## Theorems -/

/-- C10: for every call of `load_weights` with a tuple or list of weight
paths, the state dict is loaded with `strict=False` regardless of the
`strict` argument the caller passed; the caller's `strict` value is honoured
only when `load_path` is a single string. -/
theorem load_weights_strict_flag :
    (∀ (ps : List String) (strict : Bool) (call : String × Bool),
        call ∈ loadWeightsCalls (LoadPathArg.tuple ps) strict → call.2 = false) ∧
    (∀ (ps : List String) (strict : Bool) (call : String × Bool),
        call ∈ loadWeightsCalls (LoadPathArg.list ps) strict → call.2 = false) ∧
    (∀ (p : String) (strict : Bool),
        loadWeightsCalls (LoadPathArg.str p) strict = [(p, strict)]) := by
  refine ⟨?_, ?_, fun p strict => rfl⟩
  all_goals
    intro ps strict call h
    simp only [loadWeightsCalls, List.mem_map] at h
    obtain ⟨p, -, rfl⟩ := h
    rfl

/-- Witness for C10 at concrete inputs. -/
theorem load_weights_strict_flag_witness :
    (("a", false) : String × Bool).2 = false ∧
    loadWeightsCalls (LoadPathArg.str "w") true = [("w", true)] :=
  ⟨load_weights_strict_flag.1 ["a", "b"] true ("a", false) (by simp [loadWeightsCalls]),
   load_weights_strict_flag.2.2 "w" true⟩

/-- C8 counterexample: an unsupported criterion-result shape raises
`ValueError('Return loss only support Tensor/dict/tuple/list format')`,
which is not a `TypeError`-class error. -/
theorem normalize_loss_raises_value_error :
    normalizeLoss LossResult.other =
      Except.error (PyError.valueError "Return loss only support Tensor/dict/tuple/list format") ∧
    isTypeErrorResult (normalizeLoss LossResult.other) = false :=
  ⟨rfl, rfl⟩

/-- C8 (amended): `train_step` accepts a bare scalar tensor (the loss with
empty detail), a mapping containing key `'loss'` (remaining entries become
the detail), or a sequence whose first element is the primary loss and whose
remaining elements become auxiliary losses `loss1, loss2, ...` indexed from
1; any other shape fails with a `ValueError`-class error. -/
theorem loss_normalization :
    (∀ v : ℚ, normalizeLoss (LossResult.tensor v) = Except.ok (v, [])) ∧
    (∀ (entries : List (String × ℚ)) (v : ℚ),
        entries.lookup "loss" = some v →
        normalizeLoss (LossResult.mapping entries) =
          Except.ok (v, entries.filter fun p => !(p.1 == "loss"))) ∧
    (∀ (v : ℚ) (rest : List ℚ),
        normalizeLoss (LossResult.seq (v :: rest)) =
          Except.ok (v, rest.enum.map fun p => ("loss" ++ toString (p.1 + 1), p.2))) ∧
    (∃ m, normalizeLoss LossResult.other = Except.error (PyError.valueError m)) := by
  refine ⟨fun v => rfl, fun entries v h => ?_, fun v rest => rfl, ⟨_, rfl⟩⟩
  simp [normalizeLoss, h]

/-- Witness for C8 (amended) at concrete inputs. -/
theorem loss_normalization_witness :
    normalizeLoss (LossResult.mapping [("loss", 2), ("aux", 5)]) =
      Except.ok ((2 : ℚ), [("aux", (5 : ℚ))]) := by
  have h := loss_normalization.2.1 [("loss", 2), ("aux", 5)] 2 (by simp)
  simpa using h

/-- C9 counterexample: with an external-notification diagnostic configured
that itself fails, the error leaving `fit` is the diagnostic's error, not the
original one — a failure in a diagnostic does replace the original error. -/
theorem fit_diagnostic_failure_masks_error :
    (fitExceptWrapper (Except.error "original" : Except String Unit)
        (some (Except.error "smtp down")) none none).1 = Except.error "smtp down" ∧
    (Except.error "smtp down" : Except String Unit) ≠ Except.error "original" := by
  refine ⟨rfl, fun h => ?_⟩
  simp at h

/-- C9 (amended): when any error is raised during the training body, `fit`
catches it once and performs each configured diagnostic in order
(notification, checkpoint save to the fallback location, last-batch
persist); when every diagnostic succeeds, all configured diagnostics run and
the original error is re-raised unchanged; a failing diagnostic aborts the
remaining diagnostics and its own error propagates in place of the original
one.  A successful `_fit` passes through untouched. -/
theorem fit_error_diagnostics (e : String)
    (mail ckpt batch : Option (Except String Unit)) :
    (runDiagnostic mail = Except.ok () → runDiagnostic ckpt = Except.ok () →
      runDiagnostic batch = Except.ok () →
      fitExceptWrapper (Except.error e : Except String Unit) mail ckpt batch =
        (Except.error e, attemptedDiagnostics mail ckpt batch)) ∧
    (∀ em, runDiagnostic mail = Except.error em →
      fitExceptWrapper (Except.error e : Except String Unit) mail ckpt batch =
        (Except.error em, if mail.isSome then [Diagnostic.sendMail] else [])) ∧
    (∀ a : Unit, fitExceptWrapper (Except.ok a : Except String Unit) mail ckpt batch =
        (Except.ok a, [])) := by
  refine ⟨fun h1 h2 h3 => ?_, fun em h1 => ?_, fun a => rfl⟩
  · simp [fitExceptWrapper, h1, h2, h3, attemptedDiagnostics]
  · simp [fitExceptWrapper, h1]

/-- Witness for C9 (amended) at concrete inputs. -/
theorem fit_error_diagnostics_witness :
    fitExceptWrapper (Except.error "boom" : Except String Unit)
        (some (Except.ok ())) none (some (Except.ok ())) =
      (Except.error "boom", [Diagnostic.sendMail, Diagnostic.saveBatch]) ∧
    fitExceptWrapper (Except.error "boom" : Except String Unit)
        (some (Except.error "smtp")) none (some (Except.ok ())) =
      (Except.error "smtp", [Diagnostic.sendMail]) := by
  constructor
  · have h := (fit_error_diagnostics "boom" (some (Except.ok ())) none
      (some (Except.ok ()))).1 rfl rfl rfl
    simpa [attemptedDiagnostics] using h
  · have h := (fit_error_diagnostics "boom" (some (Except.error "smtp")) none
      (some (Except.ok ()))).2.1 "smtp" rfl
    simpa using h

/-- C5: the code computes `math.ceil(len(train_dataloader) //
grad_accumulation_steps)`; `//` is floor division, so for a declared length
of `10` and accumulation factor `3` the resolved `steps_per_epoch` is `3`,
whereas the ceiling of `10 / 3` claimed by the spec is `4`.  The
missing-length error path behaves as claimed, and an explicitly given
`steps_per_epoch` is taken as is. -/
theorem steps_per_epoch_floor_not_ceiling :
    prepareStepsPerEpoch (some 10) none 3 = Except.ok 3 ∧
    Int.ceil ((10 : ℚ) / 3) = 4 ∧
    prepareStepsPerEpoch none none 3 =
      Except.error "Either train_dataloader has attr __len__ or steps_per_epoch is not None" ∧
    (∀ (dataloaderLen : Option Nat) (s A : Nat),
        prepareStepsPerEpoch dataloaderLen (some s) A = Except.ok (s : ℤ)) := by
  refine ⟨?_, ?_, rfl, fun dataloaderLen s A => ?_⟩
  · show Except.ok (derivedStepsPerEpoch 10 3) = Except.ok 3
    norm_num [derivedStepsPerEpoch]
  · rw [Int.ceil_eq_iff] <;> norm_num
  · cases dataloaderLen <;> rfl

/-- Helper: the pre-`zero_grad` part of `Trainer.step` contains no scheduler
step. -/
theorem schedStep_not_mem_stepMainActions (c : StepConfig) (i : Nat) :
    StepAction.schedStep i ∉ stepMainActions c := by
  intro h
  rcases hm : c.mixedPrecisionMode <;> rcases hc : c.clipGradNorm.isSome <;>
    simp [stepMainActions, hm, hc] at h

/-- Helper: no scheduler step is emitted by `stepSchedActions` when
`skip_scheduler` holds. -/
theorem stepSchedActions_of_skip (c : StepConfig) (h : skipScheduler c = true) :
    stepSchedActions c = [] := by
  unfold stepSchedActions
  rcases hs : c.scheduler with _ | ss <;> simp [hs, h]

/-- C4: under mixed-precision scaling, if the scale factor changed across the
scaler step/update (a skipped step) then no scheduler is stepped for that
iteration; without scaling, or when the step was not skipped, every scheduler
in the list is stepped in list order; and `zero_grad` is performed after the
optimizer step in both modes, before any scheduler step. -/
theorem step_scheduler_lockstep (c : StepConfig) :
    (c.mixedPrecisionMode = true → c.scaleAfterUpdate ≠ c.scaleBeforeStep →
      ∀ i, StepAction.schedStep i ∉ trainerStep c) ∧
    ((c.mixedPrecisionMode = false ∨ c.scaleAfterUpdate = c.scaleBeforeStep) →
      ∀ ss, c.scheduler = some ss → (trainerStep c).filterMap schedIdx = ss) ∧
    (∃ pre post, trainerStep c = pre ++ StepAction.zeroGrad :: post ∧
      optimizerAction c ∈ pre ∧ ∀ a ∈ post, ∃ i, a = StepAction.schedStep i) := by
  refine ⟨?_, ?_, ?_⟩
  · intro hm hne i h
    have hskip : skipScheduler c = true := by simp [skipScheduler, hm, hne]
    rw [trainerStep, stepSchedActions_of_skip c hskip] at h
    rcases List.mem_append.1 h with h | h
    · exact schedStep_not_mem_stepMainActions c i h
    · simp at h
  · intro hm ss hss
    have hskip : skipScheduler c = false := by
      rcases hm with hm | hm <;> simp [skipScheduler, hm]
    have hsched : stepSchedActions c = ss.map StepAction.schedStep := by
      rw [stepSchedActions, hss, hskip]
    have hmain : (stepMainActions c).filterMap schedIdx = [] := by
      rw [List.filterMap_eq_nil_iff]
      intro a ha
      cases a
      case schedStep i => exact absurd ha (schedStep_not_mem_stepMainActions c i)
      all_goals rfl
    rw [trainerStep, List.filterMap_append, hmain, hsched]
    simp [schedIdx, List.filterMap_map, Function.comp_def]
  · refine ⟨stepMainActions c, stepSchedActions c, rfl, ?_, ?_⟩
    · rcases hm : c.mixedPrecisionMode <;> rcases hc : c.clipGradNorm.isSome <;>
        simp [stepMainActions, optimizerAction, hm, hc]
    · intro a ha
      unfold stepSchedActions at ha
      rcases hs : c.scheduler with _ | ss <;> rw [hs] at ha
      · simp at ha
      · rcases hk : skipScheduler c <;> rw [hk] at ha
        · simp only [List.mem_map] at ha
          obtain ⟨i, -, rfl⟩ := ha
          exact ⟨i, rfl⟩
        · simp at ha

/-- Witness for C4 at concrete inputs: a skipped scaler step (scale changed
from 2 to 1) steps no scheduler; an unchanged scale steps both schedulers in
order. -/
theorem step_scheduler_lockstep_witness :
    StepAction.schedStep 4 ∉
      trainerStep ⟨true, none, 2, 1, some [4, 5]⟩ ∧
    (trainerStep ⟨true, none, 2, 2, some [4, 5]⟩).filterMap schedIdx = [4, 5] :=
  ⟨(step_scheduler_lockstep ⟨true, none, 2, 1, some [4, 5]⟩).1 rfl (by norm_num) 4,
   (step_scheduler_lockstep ⟨true, none, 2, 2, some [4, 5]⟩).2.1 (Or.inr rfl) [4, 5] rfl⟩

/-- C6: callbacks are dispatched in registration order for every event; the
metric-smoothing callback (user-supplied, or default-injected when the
smoothing interval is configured) is always ordered first, the
history-recording callback is always appended last, and the user callbacks
keep their registration order in between; in particular, registering a
smoothing callback and two user callbacks (the progress bar disabled) yields
the dispatch order `[smoothing, user1, user2, history]`. -/
theorem callback_dispatch_order :
    (∀ (cbs : List CB) (si v : Bool) (s : CB) (rest : List CB),
        cbs.filter isSmooth = s :: rest →
        (prepareCallbacks cbs si v).head? = some s) ∧
    (∀ (cbs : List CB) (v : Bool),
        cbs.filter isSmooth = [] →
        (prepareCallbacks cbs true v).head? = some (CB.smooth 0)) ∧
    (∀ (cbs : List CB) (si v : Bool),
        (prepareCallbacks cbs si v).getLast? = some CB.history) ∧
    (∀ (cbs : List CB) (si v : Bool),
        List.Sublist (cbs.filter fun cb => !(isSmooth cb))
          (prepareCallbacks cbs si v)) ∧
    (∀ (cbs : List CB), dispatchOrder cbs true = cbs) ∧
    dispatchOrder (prepareCallbacks [CB.smooth 7, CB.user 1, CB.user 2] true false) true =
      [CB.smooth 7, CB.user 1, CB.user 2, CB.history] := by
  refine ⟨?_, ?_, ?_, ?_, fun cbs => rfl, by rfl⟩
  · intro cbs si v s rest h
    rcases hv : v <;> simp [prepareCallbacks, h, hv]
  · intro cbs v h
    rcases hv : v <;> simp [prepareCallbacks, h, hv]
  · intro cbs si v
    show ((if v then _ ++ [CB.progbar] else _) ++ (_ ++ [CB.history])).getLast? = _
    rw [← List.append_assoc]
    exact List.getLast?_concat _
  · intro cbs si v
    have h1 : List.Sublist (cbs.filter fun cb => !(isSmooth cb))
        ((cbs.filter fun cb => !(isSmooth cb)) ++ [CB.history]) :=
      List.sublist_append_left _ _
    exact h1.trans (List.sublist_append_right _ _)

/-- Helper: batch-fetch count of the gradient-accumulation inner loop. -/
theorem countP_accumEvents_fetch (a : Nat) :
    (accumEvents a).countP isBatchFetch = a := by
  induction a with
  | zero => rfl
  | succ a ih => simp [accumEvents, List.countP_cons, isBatchFetch, ih]

/-- Helper: the gradient-accumulation inner loop performs no parameter
update. -/
theorem countP_accumEvents_opt (a : Nat) :
    (accumEvents a).countP isOptStep = 0 := by
  induction a with
  | zero => rfl
  | succ a ih => simp [accumEvents, List.countP_cons, isOptStep, ih]

/-- Helper: one iteration of the step loop fetches exactly `A` batches. -/
theorem countP_stepEvents_fetch (e S A l : Nat) :
    (stepEvents e S A l).countP isBatchFetch = A := by
  simp [stepEvents, List.countP_cons, List.countP_append, countP_accumEvents_fetch,
    isBatchFetch]

/-- Helper: one iteration of the step loop performs exactly one parameter
update. -/
theorem countP_stepEvents_opt (e S A l : Nat) :
    (stepEvents e S A l).countP isOptStep = 1 := by
  simp [stepEvents, List.countP_cons, List.countP_append, countP_accumEvents_opt,
    isOptStep]

/-- Helper: batch-fetch count of the local-step loop. -/
theorem countP_localLoop_fetch (ep S A : Nat) :
    ∀ r gs ls : Nat, ((localLoop ep S A gs ls r).1).countP isBatchFetch = r * A := by
  intro r
  induction r with
  | zero => intro gs ls; simp [localLoop]
  | succ r ih =>
    intro gs ls
    simp only [localLoop, List.countP_append, countP_stepEvents_fetch, ih]
    ring

/-- Helper: parameter-update count of the local-step loop. -/
theorem countP_localLoop_opt (ep S A : Nat) :
    ∀ r gs ls : Nat, ((localLoop ep S A gs ls r).1).countP isOptStep = r := by
  intro r
  induction r with
  | zero => intro gs ls; simp [localLoop]
  | succ r ih =>
    intro gs ls
    simp only [localLoop, List.countP_append, countP_stepEvents_opt, ih]
    omega

/-- Helper: across the whole epoch loop, batch fetches are exactly the
accumulation factor times the parameter updates. -/
theorem countP_epochLoop_ratio (c : FitConfig) :
    ∀ r ep gs : Nat,
      ((epochLoop c gs ep r).1).countP isBatchFetch =
        c.gradAccumulationSteps * ((epochLoop c gs ep r).1).countP isOptStep := by
  intro r
  induction r with
  | zero => intro ep gs; rfl
  | succ r ih =>
    intro ep gs
    rw [epochLoop]
    rcases hst : c.stopOnEpochEnd ep
    · simp [hst, List.countP_append, List.countP_cons, countP_localLoop_fetch,
        countP_localLoop_opt, ih, isBatchFetch, isOptStep, Nat.mul_add, Nat.mul_comm]
    · simp [hst, List.countP_append, List.countP_cons, countP_localLoop_fetch,
        countP_localLoop_opt, isBatchFetch, isOptStep, Nat.mul_comm]

/-- C3: each iteration of the step loop fetches exactly `A` batches and
invokes the parameter-update procedure exactly once (so over any whole fit,
fetches are `A` times the updates); each micro-batch loss is scaled by `1/A`
before backward when `A > 1`; and the logged `loss` — the sum of the `A`
scaled micro-batch losses — equals the mean of the `A` per-micro-batch
losses. -/
theorem gradient_accumulation :
    (∀ e S A l : Nat, (stepEvents e S A l).countP isBatchFetch = A ∧
        (stepEvents e S A l).countP isOptStep = 1) ∧
    (∀ c : FitConfig, (fitEvents c).countP isBatchFetch =
        c.gradAccumulationSteps * (fitEvents c).countP isOptStep) ∧
    (∀ (A : Nat) (l : ℚ), 1 < A → trainStepLoss A l = l / A) ∧
    (∀ (A : Nat) (losses : List ℚ), losses.length = A → 1 ≤ A →
        trLoss A losses = losses.sum / A) := by
  refine ⟨fun e S A l => ⟨countP_stepEvents_fetch e S A l, countP_stepEvents_opt e S A l⟩,
    fun c => ?_, fun A l hA => ?_, fun A losses hlen hA => ?_⟩
  · have h := countP_epochLoop_ratio c (c.epochs - c.resumeEpoch) c.resumeEpoch 0
    simp [fitEvents, List.countP_cons, List.countP_append, isBatchFetch, isOptStep, h]
  · simp [trainStepLoss, hA]
  · rcases Nat.lt_or_ge 1 A with hA2 | hA2
    · have hm : losses.map (trainStepLoss A) = losses.map fun x => x / (A : ℚ) :=
        List.map_congr_left fun x _ => by simp [trainStepLoss, hA2]
      simp only [trLoss, hm]
      simp [div_eq_mul_inv, List.sum_map_mul_right]
    · have hA1 : A = 1 := by omega
      subst hA1
      rcases losses with _ | ⟨x, _ | ⟨y, t⟩⟩ <;> simp at hlen
      simp [trLoss, trainStepLoss]

/-- Witness for C3 at concrete inputs: accumulation factor 2 with
micro-batch losses 3 and 5 logs their mean. -/
theorem gradient_accumulation_witness :
    trainStepLoss 2 3 = 3 / 2 ∧ trLoss 2 [3, 5] = (3 + 5) / 2 := by
  constructor
  · have h := gradient_accumulation.2.2.1 2 3 (by norm_num)
    simpa using h
  · have h := gradient_accumulation.2.2.2 2 [3, 5] rfl (by norm_num)
    simpa using h

/-- Helper: the accumulation inner loop emits only batch fetches and
train-step-end notifications. -/
theorem mem_accumEvents (a : Nat) (ev : Event) (h : ev ∈ accumEvents a) :
    ev = Event.batchFetch ∨ ev = Event.trainStepEnd := by
  induction a with
  | zero => simp [accumEvents] at h
  | succ a ih =>
    simp only [accumEvents, List.mem_cons] at h
    rcases h with rfl | rfl | h
    · exact Or.inl rfl
    · exact Or.inr rfl
    · exact ih h

/-- Helper: the only `on_batch_end` of one step-loop iteration carries the
counters the code just wrote. -/
theorem batchEnd_mem_stepEvents (ep S A ls e g l : Nat)
    (h : Event.batchEnd e g l ∈ stepEvents ep S A ls) :
    e = ep ∧ g = ep * S + ls ∧ l = ls := by
  simp only [stepEvents, List.mem_cons, List.mem_append, List.mem_singleton,
    Event.batchEnd.injEq] at h
  rcases h with h | h | h | h | h
  · exact Event.noConfusion h
  · rcases mem_accumEvents A _ h with h' | h' <;> exact Event.noConfusion h'
  · exact Event.noConfusion h
  · exact h
  · exact absurd h (List.not_mem_nil _)

/-- Helper: every `on_batch_end` of the local-step loop observes
`global_step = epoch * steps_per_epoch + local_step`. -/
theorem batchEnd_mem_localLoop (ep S A : Nat) :
    ∀ r gs ls e g l : Nat, Event.batchEnd e g l ∈ (localLoop ep S A gs ls r).1 →
      e = ep ∧ g = e * S + l := by
  intro r
  induction r with
  | zero => intro gs ls e g l h; simp [localLoop] at h
  | succ r ih =>
    intro gs ls e g l h
    simp only [localLoop] at h
    rcases List.mem_append.1 h with h | h
    · obtain ⟨rfl, hg, rfl⟩ := batchEnd_mem_stepEvents ep S A ls e g l h
      exact ⟨rfl, hg⟩
    · exact ih _ _ e g l h

/-- Helper: every `on_batch_end` of the epoch loop observes
`global_step = epoch * steps_per_epoch + local_step`. -/
theorem batchEnd_mem_epochLoop (c : FitConfig) :
    ∀ r ep gs e g l : Nat, Event.batchEnd e g l ∈ (epochLoop c gs ep r).1 →
      g = e * c.stepsPerEpoch + l := by
  intro r
  induction r with
  | zero => intro ep gs e g l h; simp [epochLoop] at h
  | succ r ih =>
    intro ep gs e g l h
    simp only [epochLoop] at h
    split at h
    · rcases List.mem_cons.1 h with h | h
      · exact Event.noConfusion h
      rcases List.mem_append.1 h with h | h
      · exact (batchEnd_mem_localLoop ep c.stepsPerEpoch c.gradAccumulationSteps _
          _ _ e g l h).2
      · rcases List.mem_singleton.1 h with h
        exact Event.noConfusion h
    · rcases List.mem_append.1 h with h | h
      · rcases List.mem_cons.1 h with h | h
        · exact Event.noConfusion h
        rcases List.mem_append.1 h with h | h
        · exact (batchEnd_mem_localLoop ep c.stepsPerEpoch c.gradAccumulationSteps _
            _ _ e g l h).2
        · rcases List.mem_singleton.1 h with h
          exact Event.noConfusion h
      · exact ih _ _ e g l h

/-- Helper: the accumulation inner loop emits no `on_batch_end`. -/
theorem batchEndSteps_accumEvents (a : Nat) :
    batchEndSteps (accumEvents a) = [] := by
  induction a with
  | zero => rfl
  | succ a ih =>
    simp only [accumEvents, batchEndSteps, List.filterMap_cons] at ih ⊢
    simpa [batchEndG] using ih

/-- Helper: `batchEndSteps` distributes over appending traces. -/
theorem batchEndSteps_append (l1 l2 : List Event) :
    batchEndSteps (l1 ++ l2) = batchEndSteps l1 ++ batchEndSteps l2 :=
  List.filterMap_append l1 l2 batchEndG

/-- Helper: one step-loop iteration ends exactly one batch, at the
`global_step` the code just wrote. -/
theorem batchEndSteps_stepEvents (ep S A ls : Nat) :
    batchEndSteps (stepEvents ep S A ls) = [ep * S + ls] := by
  have h := batchEndSteps_accumEvents A
  simp only [batchEndSteps] at h
  simp [stepEvents, batchEndSteps, List.filterMap_cons, List.filterMap_append, h,
    batchEndG]

/-- Helper: the epoch-begin and epoch-end wrappers contribute no
`on_batch_end`. -/
theorem batchEndSteps_epochBlock (gs ep g2 : Nat) (inner rest : List Event) :
    batchEndSteps ((Event.epochBegin gs ep ::
        (inner ++ [Event.epochEnd g2 ep])) ++ rest) =
      batchEndSteps inner ++ batchEndSteps rest := by
  simp [batchEndSteps, List.filterMap_cons, List.filterMap_append, batchEndG]

/-- Helper: the `on_batch_end` global steps of the local-step loop are
consecutive. -/
theorem batchEndSteps_localLoop (ep S A : Nat) :
    ∀ r gs ls : Nat, batchEndSteps ((localLoop ep S A gs ls r).1) =
      (List.range r).map fun i => ep * S + (ls + i) := by
  intro r
  induction r with
  | zero => intro gs ls; simp [localLoop, batchEndSteps]
  | succ r ih =>
    intro gs ls
    simp only [localLoop, batchEndSteps, List.filterMap_append]
    have h1 := batchEndSteps_stepEvents ep S A ls
    have h2 := ih (ep * S + ls) (ls + 1)
    simp only [batchEndSteps] at h1 h2
    rw [h1, h2, List.range_succ_eq_map]
    simp only [List.map_cons, List.map_map, List.singleton_append, Nat.add_zero]
    congr 1
    apply List.map_congr_left
    intro i _
    simp [Function.comp]
    omega

/-- Helper: `getLast?` of a map over `List.range`. -/
theorem getLast?_map_range (f : Nat → Nat) (S : Nat) (h : 1 ≤ S) :
    ((List.range S).map f).getLast? = some (f (S - 1)) := by
  obtain ⟨s, rfl⟩ : ∃ s, S = s + 1 := ⟨S - 1, by omega⟩
  rw [List.range_succ, List.map_append]
  simp

/-- Helper: `head?` of a map over `List.range`. -/
theorem head?_map_range (f : Nat → Nat) (S : Nat) (h : 1 ≤ S) :
    ((List.range S).map f).head? = some (f 0) := by
  obtain ⟨s, rfl⟩ : ∃ s, S = s + 1 := ⟨S - 1, by omega⟩
  rw [List.range_succ_eq_map]
  simp

/-- Helper: on a full run (no early stop, `resume_step = 0`), the last
`on_batch_end` of the epoch loop observes the last step of its last
epoch. -/
theorem batchEndSteps_epochLoop_last (c : FitConfig) (hS : 1 ≤ c.stepsPerEpoch)
    (hstop : ∀ x, c.stopOnEpochEnd x = false) (hres : c.resumeStep = 0) :
    ∀ r, 1 ≤ r → ∀ ep gs,
      (batchEndSteps ((epochLoop c gs ep r).1)).getLast? =
        some ((ep + r - 1) * c.stepsPerEpoch + (c.stepsPerEpoch - 1)) := by
  intro r
  induction r with
  | zero => intro h; omega
  | succ r ih =>
    intro _ ep gs
    rw [epochLoop, hstop ep]
    simp only [Bool.false_eq_true, if_false]
    have hstart : epochStart c ep = 0 := by
      simp [epochStart, hres]
    rw [hstart]
    rcases Nat.eq_zero_or_pos r with hr | hr
    · subst hr
      simp only [epochLoop]
      rw [batchEndSteps_epochBlock, batchEndSteps_localLoop]
      have hnil : batchEndSteps ([] : List Event) = [] := rfl
      rw [hnil, List.append_nil, getLast?_map_range _ _ (by omega)]
      congr 1
      have h1 : ep + (0 + 1) - 1 = ep := by omega
      rw [h1]
      generalize ep * c.stepsPerEpoch = t
      omega
    · rw [batchEndSteps_epochBlock]
      have hrest := ih hr (ep + 1)
        ((localLoop ep c.stepsPerEpoch c.gradAccumulationSteps gs 0
          (c.stepsPerEpoch - 0)).2)
      have hne : batchEndSteps ((epochLoop c
          ((localLoop ep c.stepsPerEpoch c.gradAccumulationSteps gs 0
            (c.stepsPerEpoch - 0)).2) (ep + 1) r).1) ≠ [] := by
        intro hnil
        rw [hnil] at hrest
        simp at hrest
      rw [List.getLast?_append_of_ne_nil _ hne, hrest]
      have h3 : ep + 1 + r - 1 = ep + (r + 1) - 1 := by omega
      rw [h3]

/-- C1: at every `on_batch_end`, `global_step = epoch * steps_per_epoch +
local_step`; and after a full `fit` of `E` epochs with `S` steps per epoch,
no resume offset and no early stop, the `global_step` observed at the last
`on_batch_end` is `E*S - 1`. -/
theorem global_step_invariant :
    (∀ (c : FitConfig) (e g l : Nat),
        Event.batchEnd e g l ∈ fitEvents c → g = e * c.stepsPerEpoch + l) ∧
    (∀ E S A : Nat, 1 ≤ E → 1 ≤ S →
        (batchEndSteps (fitEvents
            { epochs := E, stepsPerEpoch := S, resumeEpoch := 0, resumeStep := 0,
              gradAccumulationSteps := A,
              stopOnEpochEnd := fun _ => false })).getLast? =
          some (E * S - 1)) := by
  constructor
  · intro c e g l h
    simp only [fitEvents, List.mem_cons, List.mem_append, List.mem_singleton] at h
    rcases h with h | h | h | h
    · exact Event.noConfusion h
    · exact batchEnd_mem_epochLoop c _ _ _ e g l h
    · exact Event.noConfusion h
    · exact absurd h (List.not_mem_nil _)
  · intro E S A hE hS
    have hfit : batchEndSteps (fitEvents
        { epochs := E, stepsPerEpoch := S, resumeEpoch := 0, resumeStep := 0,
          gradAccumulationSteps := A, stopOnEpochEnd := fun _ => false }) =
        batchEndSteps ((epochLoop
          { epochs := E, stepsPerEpoch := S, resumeEpoch := 0, resumeStep := 0,
            gradAccumulationSteps := A, stopOnEpochEnd := fun _ => false }
          0 0 E).1) := by
      simp [fitEvents, batchEndSteps, List.filterMap_cons, List.filterMap_append,
        batchEndG]
    rw [hfit]
    have h := batchEndSteps_epochLoop_last
      { epochs := E, stepsPerEpoch := S, resumeEpoch := 0, resumeStep := 0,
        gradAccumulationSteps := A, stopOnEpochEnd := fun _ => false }
      hS (fun _ => rfl) rfl E hE 0 0
    rw [h]
    show some ((0 + E - 1) * S + (S - 1)) = some (E * S - 1)
    congr 1
    obtain ⟨e, rfl⟩ : ∃ e, E = e + 1 := ⟨E - 1, by omega⟩
    have h1 : 0 + (e + 1) - 1 = e := by omega
    rw [h1, Nat.succ_mul]
    generalize e * S = t
    omega

/-- Witness for C1 at concrete inputs: the second step of the first epoch of
a 2-epoch, 3-step fit. -/
theorem global_step_invariant_witness :
    (1 : Nat) = 0 * (3 : Nat) + 1 ∧
    (batchEndSteps (fitEvents
        { epochs := 2, stepsPerEpoch := 3, resumeEpoch := 0, resumeStep := 0,
          gradAccumulationSteps := 2,
          stopOnEpochEnd := fun _ => false })).getLast? = some 5 :=
  ⟨global_step_invariant.1
      { epochs := 2, stepsPerEpoch := 3, resumeEpoch := 0, resumeStep := 0,
        gradAccumulationSteps := 2, stopOnEpochEnd := fun _ => false }
      0 1 1 (by decide),
   global_step_invariant.2 2 3 2 (by norm_num) (by norm_num)⟩

/-- Helper: `epochBatchBegins` distributes over appending traces. -/
theorem epochBatchBegins_append (l1 l2 : List Event) (e : Nat) :
    epochBatchBegins (l1 ++ l2) e = epochBatchBegins l1 e ++ epochBatchBegins l2 e :=
  List.filterMap_append l1 l2 (batchBeginLocalG e)

/-- Helper: the accumulation inner loop begins no batch. -/
theorem epochBatchBegins_accumEvents (a e : Nat) :
    epochBatchBegins (accumEvents a) e = [] := by
  induction a with
  | zero => rfl
  | succ a ih =>
    simp only [accumEvents, epochBatchBegins, List.filterMap_cons] at ih ⊢
    simpa [batchBeginLocalG] using ih

/-- Helper: one step-loop iteration of epoch `ep` begins exactly one batch of
epoch `ep`, at its own `local_step`. -/
theorem epochBatchBegins_stepEvents_self (ep S A ls : Nat) :
    epochBatchBegins (stepEvents ep S A ls) ep = [ls] := by
  have h := epochBatchBegins_accumEvents A ep
  simp only [epochBatchBegins] at h
  simp [stepEvents, epochBatchBegins, List.filterMap_cons, List.filterMap_append, h,
    batchBeginLocalG]

/-- Helper: one step-loop iteration of epoch `ep` begins no batch of another
epoch. -/
theorem epochBatchBegins_stepEvents_ne (ep S A ls e : Nat) (hne : ep ≠ e) :
    epochBatchBegins (stepEvents ep S A ls) e = [] := by
  have h := epochBatchBegins_accumEvents A e
  simp only [epochBatchBegins] at h
  simp [stepEvents, epochBatchBegins, List.filterMap_cons, List.filterMap_append, h,
    batchBeginLocalG, hne]

/-- Helper: the local-step loop of epoch `ep` begins its batches at
consecutive local steps. -/
theorem epochBatchBegins_localLoop_self (ep S A : Nat) :
    ∀ r gs ls : Nat, epochBatchBegins ((localLoop ep S A gs ls r).1) ep =
      (List.range r).map fun i => ls + i := by
  intro r
  induction r with
  | zero => intro gs ls; simp [localLoop, epochBatchBegins]
  | succ r ih =>
    intro gs ls
    simp only [localLoop]
    rw [epochBatchBegins_append, epochBatchBegins_stepEvents_self, ih,
      List.range_succ_eq_map]
    simp only [List.map_cons, List.map_map, List.singleton_append, Nat.add_zero]
    congr 1
    apply List.map_congr_left
    intro i _
    simp [Function.comp]
    omega

/-- Helper: the local-step loop of epoch `ep` begins no batch of another
epoch. -/
theorem epochBatchBegins_localLoop_ne (ep S A e : Nat) (hne : ep ≠ e) :
    ∀ r gs ls : Nat, epochBatchBegins ((localLoop ep S A gs ls r).1) e = [] := by
  intro r
  induction r with
  | zero => intro gs ls; simp [localLoop, epochBatchBegins]
  | succ r ih =>
    intro gs ls
    simp only [localLoop]
    rw [epochBatchBegins_append, epochBatchBegins_stepEvents_ne ep S A ls e hne, ih]
    rfl

/-- Helper: epoch-begin/epoch-end wrappers begin no batch. -/
theorem epochBatchBegins_epochBlock (gs ep g2 e : Nat) (inner rest : List Event) :
    epochBatchBegins ((Event.epochBegin gs ep ::
        (inner ++ [Event.epochEnd g2 ep])) ++ rest) e =
      epochBatchBegins inner e ++ epochBatchBegins rest e := by
  simp [epochBatchBegins, List.filterMap_cons, List.filterMap_append, batchBeginLocalG]

/-- Helper: the same, for a stopped epoch (no trailing events). -/
theorem epochBatchBegins_epochWrap (gs ep g2 e : Nat) (inner : List Event) :
    epochBatchBegins (Event.epochBegin gs ep ::
        (inner ++ [Event.epochEnd g2 ep])) e =
      epochBatchBegins inner e := by
  simp [epochBatchBegins, List.filterMap_cons, List.filterMap_append, batchBeginLocalG]

/-- Helper: the epoch loop starting at `ep` begins no batch of an earlier
epoch. -/
theorem epochBatchBegins_epochLoop_lt (c : FitConfig) :
    ∀ r ep gs e : Nat, e < ep →
      epochBatchBegins ((epochLoop c gs ep r).1) e = [] := by
  intro r
  induction r with
  | zero => intro ep gs e h; simp [epochLoop, epochBatchBegins]
  | succ r ih =>
    intro ep gs e h
    rw [epochLoop]
    rcases hst : c.stopOnEpochEnd ep
    · simp only [Bool.false_eq_true, if_false]
      rw [epochBatchBegins_epochBlock,
        epochBatchBegins_localLoop_ne ep c.stepsPerEpoch c.gradAccumulationSteps e
          (by omega), ih (ep + 1) _ e (by omega)]
      rfl
    · simp only [if_true]
      rw [epochBatchBegins_epochWrap,
        epochBatchBegins_localLoop_ne ep c.stepsPerEpoch c.gradAccumulationSteps e
          (by omega)]

/-- Helper: on a no-stop run, epoch `e` of the epoch loop begins its batches
at local steps `epochStart c e, epochStart c e + 1, ...`. -/
theorem epochBatchBegins_epochLoop (c : FitConfig)
    (hstop : ∀ x, c.stopOnEpochEnd x = false) :
    ∀ r ep gs e : Nat, ep ≤ e → e < ep + r →
      epochBatchBegins ((epochLoop c gs ep r).1) e =
        (List.range (c.stepsPerEpoch - epochStart c e)).map
          fun i => epochStart c e + i := by
  intro r
  induction r with
  | zero => intro ep gs e h1 h2; omega
  | succ r ih =>
    intro ep gs e h1 h2
    rw [epochLoop, hstop ep]
    simp only [Bool.false_eq_true, if_false]
    rw [epochBatchBegins_epochBlock]
    rcases Nat.eq_or_lt_of_le h1 with heq | hlt
    · subst heq
      rw [epochBatchBegins_localLoop_self,
        epochBatchBegins_epochLoop_lt c r (ep + 1) _ ep (by omega), List.append_nil]
    · rw [epochBatchBegins_localLoop_ne ep c.stepsPerEpoch c.gradAccumulationSteps e
        (by omega), ih (ep + 1) _ e (by omega) (by omega), List.nil_append]

/-- Helper: the train-begin/train-end wrappers of `fit` begin no batch. -/
theorem epochBatchBegins_fitEvents (c : FitConfig) (e : Nat) :
    epochBatchBegins (fitEvents c) e =
      epochBatchBegins ((epochLoop c 0 c.resumeEpoch (c.epochs - c.resumeEpoch)).1) e := by
  simp [fitEvents, epochBatchBegins, List.filterMap_cons, List.filterMap_append,
    batchBeginLocalG]

/-- C2: `save_steps_params` persists exactly
`resume_step = (local_step+1) mod steps_per_epoch` and
`resume_epoch = epoch + (local_step+1) div steps_per_epoch` (the saved
`resume_step` is always a valid local step), and a fit run with loaded
resume counters starts `local_step` of its first iterated epoch at
`resume_step` while every subsequent epoch starts at `0`. -/
theorem save_steps_params_resume :
    (∀ l ep S : Nat, saveStepsParams l ep S =
        ((l + 1) % S, ep + (l + 1) / S)) ∧
    (∀ l ep S : Nat, 1 ≤ S → (saveStepsParams l ep S).1 < S) ∧
    (∀ E S A rs re : Nat, rs < S → re < E →
      firstLocalOfEpoch (fitEvents
        { epochs := E, stepsPerEpoch := S, resumeEpoch := re, resumeStep := rs,
          gradAccumulationSteps := A, stopOnEpochEnd := fun _ => false }) re =
        some rs ∧
      ∀ e, re < e → e < E →
        firstLocalOfEpoch (fitEvents
          { epochs := E, stepsPerEpoch := S, resumeEpoch := re, resumeStep := rs,
            gradAccumulationSteps := A, stopOnEpochEnd := fun _ => false }) e =
          some 0) := by
  refine ⟨fun l ep S => rfl, fun l ep S hS => Nat.mod_lt _ (by omega), ?_⟩
  intro E S A rs re hrs hre
  constructor
  · rw [firstLocalOfEpoch, epochBatchBegins_fitEvents]
    rw [epochBatchBegins_epochLoop _ (fun _ => rfl) (E - re) re 0 re (le_refl re)
      (by omega)]
    have hstart : epochStart
        { epochs := E, stepsPerEpoch := S, resumeEpoch := re, resumeStep := rs,
          gradAccumulationSteps := A, stopOnEpochEnd := fun _ => false } re = rs := by
      show (if re = re then rs else 0) = rs
      rw [if_pos rfl]
    rw [hstart, head?_map_range _ _ (by show 1 ≤ S - rs; omega)]
    simp
  · intro e he1 he2
    rw [firstLocalOfEpoch, epochBatchBegins_fitEvents]
    rw [epochBatchBegins_epochLoop _ (fun _ => rfl) (E - re) re 0 e (by omega)
      (by omega)]
    have hstart : epochStart
        { epochs := E, stepsPerEpoch := S, resumeEpoch := re, resumeStep := rs,
          gradAccumulationSteps := A, stopOnEpochEnd := fun _ => false } e = 0 := by
      show (if e = re then rs else 0) = 0
      rw [if_neg (by omega)]
    rw [hstart, head?_map_range _ _ (by show 1 ≤ S - 0; omega)]

/-- Witness for C2 at concrete inputs: resuming at epoch 1, step 2 of a
4-epoch, 3-step run (the counters saved at epoch 1, local step 1). -/
theorem save_steps_params_resume_witness :
    firstLocalOfEpoch (fitEvents
      { epochs := 4, stepsPerEpoch := 3, resumeEpoch := 1, resumeStep := 2,
        gradAccumulationSteps := 1, stopOnEpochEnd := fun _ => false }) 1 =
      some 2 ∧
    firstLocalOfEpoch (fitEvents
      { epochs := 4, stepsPerEpoch := 3, resumeEpoch := 1, resumeStep := 2,
        gradAccumulationSteps := 1, stopOnEpochEnd := fun _ => false }) 2 =
      some 0 :=
  ⟨(save_steps_params_resume.2.2 4 3 1 2 1 (by norm_num) (by norm_num)).1,
   (save_steps_params_resume.2.2 4 3 1 2 1 (by norm_num) (by norm_num)).2 2
     (by norm_num) (by norm_num)⟩

/-- Helper: one step-loop iteration emits no `on_epoch_begin`. -/
theorem epochBegin_not_mem_stepEvents (ep S A ls g e : Nat) :
    Event.epochBegin g e ∉ stepEvents ep S A ls := by
  intro h
  simp only [stepEvents, List.mem_cons, List.mem_append, List.mem_singleton] at h
  rcases h with h | h | h | h | h
  · exact Event.noConfusion h
  · rcases mem_accumEvents A _ h with h' | h' <;> exact Event.noConfusion h'
  · exact Event.noConfusion h
  · exact Event.noConfusion h
  · exact absurd h (List.not_mem_nil _)

/-- Helper: the local-step loop emits no `on_epoch_begin`. -/
theorem epochBegin_not_mem_localLoop (ep S A : Nat) :
    ∀ r gs ls g e : Nat, Event.epochBegin g e ∉ (localLoop ep S A gs ls r).1 := by
  intro r
  induction r with
  | zero => intro gs ls g e h; simp [localLoop] at h
  | succ r ih =>
    intro gs ls g e h
    simp only [localLoop] at h
    rcases List.mem_append.1 h with h | h
    · exact epochBegin_not_mem_stepEvents ep S A ls g e h
    · exact ih _ _ g e h

/-- Helper: an `on_epoch_begin` of epoch `e'` emitted by the epoch loop
starting at `ep` has `ep ≤ e'`, and every earlier epoch in range ended
without the stop flag set. -/
theorem epochBegin_mem_epochLoop (c : FitConfig) :
    ∀ r ep gs g e' : Nat, Event.epochBegin g e' ∈ (epochLoop c gs ep r).1 →
      ep ≤ e' ∧ ∀ j, ep ≤ j → j < e' → c.stopOnEpochEnd j = false := by
  intro r
  induction r with
  | zero => intro ep gs g e' h; simp [epochLoop] at h
  | succ r ih =>
    intro ep gs g e' h
    simp only [epochLoop] at h
    split at h
    · rcases List.mem_cons.1 h with h | h
      · simp only [Event.epochBegin.injEq] at h
        obtain ⟨-, rfl⟩ := h
        exact ⟨le_refl _, fun j hj1 hj2 => absurd hj2 (by omega)⟩
      rcases List.mem_append.1 h with h | h
      · exact absurd h (epochBegin_not_mem_localLoop _ _ _ _ _ _ g e')
      · rcases List.mem_singleton.1 h with h
        exact Event.noConfusion h
    · next hst' =>
      have hst : c.stopOnEpochEnd ep = false := by
        rwa [Bool.not_eq_true] at hst'
      rcases List.mem_append.1 h with h | h
      · rcases List.mem_cons.1 h with h | h
        · simp only [Event.epochBegin.injEq] at h
          obtain ⟨-, rfl⟩ := h
          exact ⟨le_refl _, fun j hj1 hj2 => absurd hj2 (by omega)⟩
        rcases List.mem_append.1 h with h | h
        · exact absurd h (epochBegin_not_mem_localLoop _ _ _ _ _ _ g e')
        · rcases List.mem_singleton.1 h with h
          exact Event.noConfusion h
      · obtain ⟨h1, h2⟩ := ih (ep + 1) _ g e' h
        refine ⟨by omega, fun j hj1 hj2 => ?_⟩
        rcases Nat.eq_or_lt_of_le hj1 with heq | hlt
        · rw [heq] at hst
          exact hst
        · exact h2 j (by omega) hj2

/-- Helper: when the stop flag is first set at epoch `k` (within range), the
epoch loop ends exactly with that epoch's `on_epoch_end`. -/
theorem epochLoop_stop_decomp (c : FitConfig) (k : Nat)
    (hstop : c.stopOnEpochEnd k = true) :
    ∀ r ep gs : Nat, ep ≤ k → k < ep + r →
      (∀ j, ep ≤ j → j < k → c.stopOnEpochEnd j = false) →
      ∃ pre g, (epochLoop c gs ep r).1 = pre ++ [Event.epochEnd g k] := by
  intro r
  induction r with
  | zero => intro ep gs h1 h2; omega
  | succ r ih =>
    intro ep gs h1 h2 hbefore
    rcases Nat.eq_or_lt_of_le h1 with heq | hlt
    · subst heq
      rw [epochLoop, hstop]
      simp only [if_true]
      exact ⟨Event.epochBegin gs ep ::
        (localLoop ep c.stepsPerEpoch c.gradAccumulationSteps gs (epochStart c ep)
          (c.stepsPerEpoch - epochStart c ep)).1,
        (localLoop ep c.stepsPerEpoch c.gradAccumulationSteps gs (epochStart c ep)
          (c.stepsPerEpoch - epochStart c ep)).2, rfl⟩
    · have hst : c.stopOnEpochEnd ep = false := hbefore ep (le_refl ep) hlt
      rw [epochLoop, hst]
      simp only [Bool.false_eq_true, if_false]
      obtain ⟨pre, g, heq⟩ := ih (ep + 1)
        ((localLoop ep c.stepsPerEpoch c.gradAccumulationSteps gs (epochStart c ep)
          (c.stepsPerEpoch - epochStart c ep)).2)
        (by omega) (by omega) (fun j hj1 hj2 => hbefore j (by omega) hj2)
      refine ⟨(Event.epochBegin gs ep ::
        ((localLoop ep c.stepsPerEpoch c.gradAccumulationSteps gs (epochStart c ep)
          (c.stepsPerEpoch - epochStart c ep)).1 ++
          [Event.epochEnd (localLoop ep c.stepsPerEpoch c.gradAccumulationSteps gs
            (epochStart c ep) (c.stepsPerEpoch - epochStart c ep)).2 ep])) ++ pre,
        g, ?_⟩
      rw [heq, List.append_assoc]

/-- C7: if a callback sets `stop_training` during `on_epoch_end` of epoch `k`
with `k < E-1` (and no earlier epoch stopped), `fit` terminates right after
emitting that epoch's end event — the trace continues only with
`on_train_end` — and epoch `k+1` is never begun. -/
theorem early_stop (c : FitConfig) (k : Nat)
    (hk1 : c.resumeEpoch ≤ k) (hk2 : k + 1 < c.epochs)
    (hstop : c.stopOnEpochEnd k = true)
    (hbefore : ∀ j, c.resumeEpoch ≤ j → j < k → c.stopOnEpochEnd j = false) :
    (∃ pre g, fitEvents c = pre ++ [Event.epochEnd g k, Event.trainEnd]) ∧
    ∀ g, Event.epochBegin g (k + 1) ∉ fitEvents c := by
  constructor
  · obtain ⟨pre, g, heq⟩ := epochLoop_stop_decomp c k hstop
      (c.epochs - c.resumeEpoch) c.resumeEpoch 0 hk1 (by omega) hbefore
    refine ⟨Event.trainBegin :: pre, g, ?_⟩
    rw [fitEvents, heq, List.append_assoc]
    rfl
  · intro g h
    simp only [fitEvents, List.mem_cons, List.mem_append, List.mem_singleton] at h
    rcases h with h | h | h | h
    · exact Event.noConfusion h
    · obtain ⟨-, hall⟩ := epochBegin_mem_epochLoop c _ _ _ g (k + 1) h
      have hx := hall k hk1 (by omega)
      rw [hstop] at hx
      exact Bool.noConfusion hx
    · exact Event.noConfusion h
    · exact absurd h (List.not_mem_nil _)

/-- Witness for C7 at concrete inputs: stopping at epoch 1 of a 5-epoch run
never begins epoch 2 (here at the `global_step` value 3 it would carry). -/
theorem early_stop_witness :
    Event.epochBegin 3 2 ∉ fitEvents
        { epochs := 5, stepsPerEpoch := 2, resumeEpoch := 0, resumeStep := 0,
          gradAccumulationSteps := 1, stopOnEpochEnd := fun e => e == 1 } :=
  (early_stop
    { epochs := 5, stepsPerEpoch := 2, resumeEpoch := 0, resumeStep := 0,
      gradAccumulationSteps := 1, stopOnEpochEnd := fun e => e == 1 }
    1 (by show (0:Nat) ≤ 1; omega) (by show 1 + 1 < 5; omega) rfl
    (fun j _ hj => by
      have hj0 : j = 0 := by omega
      subst hj0
      rfl)).2 3

/-- Witness for C6 at concrete inputs: a user-supplied smoothing callback is
moved to the front even when registered second. -/
theorem callback_dispatch_order_witness :
    (prepareCallbacks [CB.user 3, CB.smooth 9, CB.user 4] false true).head? =
      some (CB.smooth 9) ∧
    (prepareCallbacks [CB.user 3] true false).head? = some (CB.smooth 0) :=
  ⟨callback_dispatch_order.1 [CB.user 3, CB.smooth 9, CB.user 4] false true
      (CB.smooth 9) [] (by rfl),
   callback_dispatch_order.2.1 [CB.user 3] false (by rfl)⟩

end Torch4Keras
